import Mathlib

/-!
# WiiLink WFC DNS proxy: a model of `Program.cpp`

The program is a single-threaded UDP relay.  `main` parses its arguments,
creates and binds the listener, resolves the upstream server and then runs an
unbounded loop.  Every pass of the loop

1. walks the vector `sockets`, closing and erasing every entry older than five
   seconds and registering the others in an `fd_set`,
2. blocks in `select`,
3. either forwards one client datagram on a newly created upstream socket
   (listener readable) or relays one upstream reply to the client stored with
   the first readable entry.

Modelling conventions.

* System calls are answered by an explicit environment record (`Env` for one pass
  of the loop, `StartEnv` for the start-up path); the calls themselves are logged
  in `State.trace`.
* `unsigned int` values are natural numbers reduced modulo `2 ^ 32`; descriptors
  (`int`) and `time_t` values are integers.
* An `fd_set` is a list of descriptors that is only ever asked for membership.
* The two `for` loops carry a fuel argument; running out of fuel is `none`.
* Text written to standard output is not part of the model; the diagnostics of
  `printError` are.
-/

namespace WwfcDnsProxy

/-! ## Data -/

/-- Contents of a `sockaddr_in` that the program looks at: IPv4 address and port. -/
structure SockAddr where
  ip : Nat
  port : Nat
deriving DecidableEq

/-- The local struct `SocketInfo` of `main`. -/
structure SocketInfo where
  sock : Int
  addr : SockAddr
  time : Int
deriving DecidableEq

/-- System calls issued by the program, in the order they are issued.  A
payload of `none` stands for a buffer read that leaves the bytes written by the
preceding receive call. -/
inductive Event where
  | wsaStartup
  | socket (ret : Int)
  | bind (fd : Int) (addr : SockAddr)
  | resolve (host : String)
  | connect (fd : Int) (peer : SockAddr)
  | getsockname (fd : Int)
  | select (nfds : Int) (fds : List Int)
  | recvfrom (fd : Int)
  | recv (fd : Int)
  | send (fd : Int) (payload : Option (List Nat))
  | sendto (fd : Int) (payload : Option (List Nat)) (dest : SockAddr)
  | close (fd : Int)
  | perror (msg : String)
deriving DecidableEq

/-- Variables of `main` that live across passes of the loop, together with the
bookkeeping of the model: `openFds` are the descriptors created by the
forwarding branch and not closed since, `stray` collects every `close` issued on
a descriptor that was not in `openFds`, `trace` is the log of system calls. -/
structure State where
  sockets : List SocketInfo
  client : SockAddr
  openFds : List Int
  stray : List Int
  trace : List Event
deriving DecidableEq

/-- Answers of the operating system during one pass of the loop.
`clock k` is the value of the `k`-th call (counted from zero) of
`std::time(NULL)` in this pass.  `dgram` is the datagram delivered to the
receive call of this pass (`none`: the call fails with `-1`), `peer` its
sender as reported by `recvfrom`. -/
structure Env where
  clock : Nat → Int
  selectRet : Int
  selectFds : List Int
  dgram : Option (List Nat)
  peer : SockAddr
  newSock : Int
  connectRet : Int
  sendRet : Int

/-- How one pass of the loop (or the whole program) ends: the loop goes on, `main`
returns, or the program performs an operation without defined behaviour
(erasing past the end of the vector, using the never assigned `info`). -/
inductive Outcome where
  | next (st : State)
  | exit (code : Int) (st : State)
  | undefined (st : State)
deriving DecidableEq

/-- State carried by an outcome. -/
def Outcome.state : Outcome → State
  | Outcome.next st => st
  | Outcome.exit _ st => st
  | Outcome.undefined st => st

/-! ## Machine arithmetic and buffers -/

/-- The statement `i++` on an `unsigned int`. -/
def uInc (i : Nat) : Nat := (i + 1) % 4294967296

/-- The statement `i--` on an `unsigned int`. -/
def uDec (i : Nat) : Nat := (i + 4294967295) % 4294967296

/-- Conversion of a signed return value to `unsigned int`. -/
def toU32 (z : Int) : Nat := (z % 4294967296).toNat

/-- Conversion of an `int` to the `uint16_t` argument of `htons`. -/
def toU16 (z : Int) : Nat := (z % 65536).toNat

/-- Size of the local array `char buf[0x8000]`. -/
def bufSize : Nat := 0x8000

/-- A receive call with buffer `buf` and size `sizeof(buf)`: the return value
and the bytes stored at the start of `buf`.  A datagram longer than the buffer is
cut off by the operating system. -/
def recvInto (dgram : Option (List Nat)) : Int × List Nat :=
  match dgram with
  | none => (-1, [])
  | some d => (((d.take bufSize).length : Nat), d.take bufSize)

/-- The bytes a send call takes from `buf` when asked for `len` bytes, where
`written` are the bytes stored by the preceding receive call.  Reading further
than that yields bytes the program never set. -/
def readBuf (written : List Nat) (len : Nat) : Option (List Nat) :=
  if len ≤ written.length then some (written.take len) else none

/-- The function `printError`: logs the diagnostic, returns 1. -/
def printError (msg : String) (st : State) : Int × State :=
  (1, { st with trace := st.trace ++ [Event.perror msg] })

/-- Append a system call to the log. -/
def State.emit (st : State) (e : Event) : State :=
  { st with trace := st.trace ++ [e] }

/-- The call `close(fd)`. -/
def State.close (st : State) (fd : Int) : State :=
  { st with
    openFds := st.openFds.erase fd
    stray := if fd ∈ st.openFds then st.stray else st.stray ++ [fd]
    trace := st.trace ++ [Event.close fd] }

/-- The statement `return printError(msg);` inside `main`. -/
def fatal (msg : String) (st : State) : Outcome :=
  Outcome.exit (printError msg st).1 (printError msg st).2

/-! ## The loop that clears unused sockets (lines 213 to 237) -/

/-- Local variables of the clearing loop together with the program state;
`ticks` counts the calls of `std::time(NULL)` made so far in this pass. -/
structure ReapState where
  i : Nat
  ticks : Nat
  fds : List Int
  maxSock : Int
  st : State
deriving DecidableEq

/-- The `for` loop of lines 215 to 237, entered at its condition. -/
def reapLoop (clock : Nat → Int) : Nat → ReapState → Option ReapState
  | 0, _ => none
  | fuel + 1, r =>
    if h : r.i < r.st.sockets.length then
      let info := r.st.sockets[r.i]
      if clock r.ticks - info.time > 5 then
        let st := r.st.close info.sock
        let st := { st with sockets := st.sockets.eraseIdx r.i }
        reapLoop clock fuel
          { r with i := uInc (uDec r.i), ticks := r.ticks + 1, st := st }
      else
        reapLoop clock fuel
          { r with
            i := uInc r.i
            ticks := r.ticks + 1
            fds := r.fds ++ [info.sock]
            maxSock := if info.sock > r.maxSock then info.sock else r.maxSock }
    else some r

/-- Lines 209 to 237: `FD_ZERO`, `FD_SET(sock)`, `maxSock = sock`, then the loop. -/
def reapPass (listener : Int) (clock : Nat → Int) (fuel : Nat) (st : State) :
    Option ReapState :=
  reapLoop clock fuel
    { i := 0, ticks := 0, fds := [listener], maxSock := listener, st := st }

/-! ## Handling of the readable descriptor (lines 243 to 314) -/

/-- Lines 247 to 282: a datagram of a client is forwarded on a new socket. -/
def dispatch (listener : Int) (server : SockAddr) (env : Env) (ticks : Nat)
    (st : State) : Outcome :=
  let len := toU32 (recvInto env.dgram).1
  let buf := (recvInto env.dgram).2
  let client := if env.dgram.isSome then env.peer else st.client
  let st := { st with client := client }.emit (Event.recvfrom listener)
  let reqSock := env.newSock
  let st := st.emit (Event.socket reqSock)
  if reqSock < 0 then fatal "Failed to create socket" st
  else
    let st := { st with openFds := st.openFds ++ [reqSock] }
    let st := st.emit (Event.connect reqSock server)
    if env.connectRet < 0 then fatal "Failed to connect to server" st
    else
      let st := st.emit (Event.send reqSock (readBuf buf len))
      if env.sendRet < 0 then fatal "Failed to send data" st
      else
        let info : SocketInfo :=
          { sock := reqSock, addr := client, time := env.clock ticks }
        Outcome.next { st with sockets := st.sockets ++ [info] }

/-- The search loop of lines 286 to 292, entered at its condition.  The result
is the final `i`, the final content of `info` (`none` while never assigned) and
whether the loop was left by `break`. -/
def searchLoop (fds : List Int) (sockets : List SocketInfo) :
    Nat → Nat → Option SocketInfo → Option (Nat × Option SocketInfo × Bool)
  | 0, _, _ => none
  | fuel + 1, i, info =>
    if h : i < sockets.length then
      if sockets[i].sock ∈ fds then some (i, some sockets[i], true)
      else searchLoop fds sockets fuel (uInc i) (some sockets[i])
    else some (i, info, false)

/-- Lines 284 to 314: the reply of the first readable entry is sent to its
client.  `len` starts at 0 and `buf` is only written by `recv`. -/
def relay (listener : Int) (env : Env) (fds : List Int) (fuel : Nat)
    (st : State) : Option Outcome :=
  match searchLoop fds st.sockets fuel 0 none with
  | none => none
  | some (_, none, _) => some (Outcome.undefined st)
  | some (i, some info, found) =>
    let len := if found then toU32 (recvInto env.dgram).1 else 0
    let buf := if found then (recvInto env.dgram).2 else []
    let st := if found then st.emit (Event.recv info.sock) else st
    let st := st.close info.sock
    if i < st.sockets.length then
      let st := { st with sockets := st.sockets.eraseIdx i }
      let st := st.emit (Event.sendto listener (readBuf buf len) info.addr)
      if env.sendRet < 0 then some (fatal "Failed to send data" st)
      else some (Outcome.next st)
    else some (Outcome.undefined st)

/-- Lines 239 to 314: `select`, then one of the two branches. -/
def handle (listener : Int) (server : SockAddr) (env : Env) (fuel : Nat)
    (r : ReapState) : Option Outcome :=
  let st := r.st.emit (Event.select (r.maxSock + 1) r.fds)
  if env.selectRet < 0 then some (fatal "Failed to select socket" st)
  else if listener ∈ env.selectFds then
    some (dispatch listener server env r.ticks st)
  else relay listener env env.selectFds fuel st

/-- One pass of the `while (true)` loop. -/
def iteration (listener : Int) (server : SockAddr) (fuel : Nat) (env : Env)
    (st : State) : Option Outcome :=
  match reapPass listener env.clock fuel st with
  | none => none
  | some r => handle listener server env fuel r

/-- The `while (true)` loop run against a finite list of environments; `next`
means that the loop is still running when the list is used up. -/
def runLoop (listener : Int) (server : SockAddr) (fuel : Nat) :
    List Env → State → Option Outcome
  | [], st => some (Outcome.next st)
  | env :: envs, st =>
    match iteration listener server fuel env st with
    | some (Outcome.next st1) => runLoop listener server fuel envs st1
    | other => other

/-! ## Start-up (lines 89 to 198) -/

/-- Values of `verbose`, `serverAddress` and `bindAddress`. -/
structure Config where
  verbose : Bool
  serverAddress : String
  bindAddress : String
deriving DecidableEq

/-- Initial values of the three option variables (lines 96 to 99). -/
def defaultConfig : Config :=
  { verbose := false
    serverAddress := "violet.wiilink24.com:1053"
    bindAddress := "0.0.0.0" }

/-- Result of the argument loop: `main` returns with a code, or goes on. -/
inductive ArgResult where
  | exit (code : Int)
  | ok (cfg : Config)
deriving DecidableEq

/-- The argument loop of lines 101 to 148, run on `argv[i], ..., argv[argc-1]`.
The test `i + 1 >= argc` is the test that no argument follows. -/
def parseArgs : List String → Config → ArgResult
  | [], cfg => ArgResult.ok cfg
  | a :: rest, cfg =>
    if a = "-h" ∨ a = "--help" then ArgResult.exit 0
    else if a = "-v" ∨ a = "--verbose" then
      parseArgs rest { cfg with verbose := true }
    else if a = "-a" ∨ a = "--address" then
      match rest with
      | [] => ArgResult.exit 1
      | v :: rest1 => parseArgs rest1 { cfg with serverAddress := v }
    else if a = "-b" ∨ a = "--bind" then
      match rest with
      | [] => ArgResult.exit 1
      | v :: rest1 => parseArgs rest1 { cfg with bindAddress := v }
    else ArgResult.exit 1

/-- Library functions whose text is not part of the program. -/
structure Libc where
  inet_addr : String → Nat
  atoi : String → Int

/-- Answers of the operating system on the start-up path.  `wsaRet` is the
result of `WSAStartup` in a WIN32 build and `none` in any other build;
`resolve` is `gethostbyname` reduced to the first address of the entry
(`none`: a null result); `client0` is the content of the variable `client`
before it is first written. -/
structure StartEnv where
  wsaRet : Option Int
  sockRet : Int
  bindRet : Int
  resolve : String → Option Nat
  testSock : Int
  testConnectRet : Int
  getsocknameRet : Int
  ntoaOk : Bool
  client0 : SockAddr

/-- Lines 180 to 188: the text in front of the first colon, and the text
behind it when there is a colon. -/
def splitAddress (s : String) : String × Option String :=
  match s.toList.dropWhile (fun c => c != ':') with
  | [] => (s, none)
  | _ :: rest => (String.mk (s.toList.takeWhile (fun c => c != ':')), some (String.mk rest))

/-- Port stored in `server.sin_port` (lines 181 to 186), in host byte order. -/
def serverPort (libc : Libc) (s : String) : Nat :=
  match (splitAddress s).2 with
  | none => 1053
  | some p => toU16 (libc.atoi p)

/-- The constant `INADDR_NONE`. -/
def INADDR_NONE : Nat := 0xFFFFFFFF

/-- The function `printLocalIP` (lines 44 to 87), as the calls it adds to the
log. -/
def printLocalIP (w : StartEnv) (server : SockAddr) (tr : List Event) : List Event :=
  let tr := tr ++ [Event.socket w.testSock]
  if w.testSock < 0 then tr ++ [Event.perror "Failed to create test socket"]
  else
    let tr := tr ++ [Event.connect w.testSock server]
    if w.testConnectRet < 0 then tr ++ [Event.perror "Failed to connect to server"]
    else
      let tr := tr ++ [Event.getsockname w.testSock]
      if w.getsocknameRet < 0 then tr ++ [Event.perror "Failed to get local address"]
      else if w.ntoaOk = false then tr ++ [Event.perror "Failed to get local IP address"]
      else tr ++ [Event.close w.testSock]

/-- Result of the code in front of the loop. -/
inductive Boot where
  | exit (code : Int) (trace : List Event)
  | run (cfg : Config) (listener : Int) (server : SockAddr) (st : State)

/-- State at the first pass of the loop: an empty vector. -/
def initState (client0 : SockAddr) (tr : List Event) : State :=
  { sockets := [], client := client0, openFds := [], stray := [], trace := tr }

/-- Lines 150 to 198, after the argument loop has ended normally. -/
def startup (libc : Libc) (w : StartEnv) (cfg : Config) : Boot :=
  let tr : List Event := match w.wsaRet with
    | none => []
    | some _ => [Event.wsaStartup]
  if (match w.wsaRet with | none => false | some r => decide (r ≠ 0)) then
    Boot.exit 1 (tr ++ [Event.perror "Failed to initialize Winsock"])
  else
    let tr := tr ++ [Event.socket w.sockRet]
    if w.sockRet < 0 then Boot.exit 1 (tr ++ [Event.perror "Failed to create socket"])
    else
      let bindAddr : SockAddr := { ip := libc.inet_addr cfg.bindAddress, port := 53 }
      let tr := tr ++ [Event.bind w.sockRet bindAddr]
      if w.bindRet < 0 then
        Boot.exit 1 (tr ++ [Event.perror ("Failed to bind to " ++ cfg.bindAddress)])
      else
        let host := (splitAddress cfg.serverAddress).1
        let port := serverPort libc cfg.serverAddress
        let tr := tr ++ [Event.resolve host]
        match w.resolve host with
        | none => Boot.exit 1 (tr ++ [Event.perror "Failed to resolve server address"])
        | some a =>
          if a = INADDR_NONE then
            Boot.exit 1 (tr ++ [Event.perror "Invalid server address"])
          else
            let server : SockAddr := { ip := a, port := port }
            Boot.run cfg w.sockRet server (initState w.client0 (printLocalIP w server tr))

/-- The function `main`, with the loop run against the list `envs`. -/
def main (libc : Libc) (w : StartEnv) (argv : List String) (fuel : Nat)
    (envs : List Env) : Option Outcome :=
  match parseArgs (argv.drop 1) defaultConfig with
  | ArgResult.exit code => some (Outcome.exit code (initState w.client0 []))
  | ArgResult.ok cfg =>
    match startup libc w cfg with
    | Boot.exit code tr => some (Outcome.exit code (initState w.client0 tr))
    | Boot.run _ listener server st => runLoop listener server fuel envs st

/-! ## Summaries of the two loops

The functions of this section are not taken from the program.  They describe
the clearing loop by recursion over the vector and are shown below to agree
with `reapLoop`. -/

/-- Entries the clearing loop leaves in the vector, when the entry at the head
of the list is examined with the `k`-th clock reading. -/
def kept (clock : Nat → Int) : Nat → List SocketInfo → List SocketInfo
  | _, [] => []
  | k, s :: rest =>
    if clock k - s.time > 5 then kept clock (k + 1) rest
    else s :: kept clock (k + 1) rest

/-- Entries the clearing loop erases, under the same convention. -/
def evicted (clock : Nat → Int) : Nat → List SocketInfo → List SocketInfo
  | _, [] => []
  | k, s :: rest =>
    if clock k - s.time > 5 then s :: evicted clock (k + 1) rest
    else evicted clock (k + 1) rest

/-- A sequence of `close` calls. -/
def closeAll (st : State) (fds : List Int) : State :=
  fds.foldl State.close st

/-- The running maximum kept in `maxSock`. -/
def maxOf (m : Int) (fds : List Int) : Int :=
  fds.foldl (fun a b => if b > a then b else a) m

/-- Position of the first entry whose socket is in `fds`. -/
def firstReadable (fds : List Int) : List SocketInfo → Option Nat
  | [] => none
  | s :: rest =>
    if s.sock ∈ fds then some 0
    else (firstReadable fds rest).map (fun n => n + 1)

/-- State after the reply branch has served the entry `s` at index `n`. -/
def relayed (listener : Int) (env : Env) (st : State) (n : Nat) (s : SocketInfo) : State :=
  { sockets := st.sockets.eraseIdx n
    client := st.client
    openFds := st.openFds.erase s.sock
    stray := if s.sock ∈ st.openFds then st.stray else st.stray ++ [s.sock]
    trace := st.trace ++
      [Event.recv s.sock, Event.close s.sock,
       Event.sendto listener (readBuf (recvInto env.dgram).2 (toU32 (recvInto env.dgram).1))
         s.addr] }

/-- Loop variables and state at the call of `select`, as left by the clearing
loop. -/
def afterReap (listener : Int) (clock : Nat → Int) (st : State) : ReapState :=
  { i := (kept clock 0 st.sockets).length
    ticks := st.sockets.length
    fds := listener :: (kept clock 0 st.sockets).map SocketInfo.sock
    maxSock := maxOf listener ((kept clock 0 st.sockets).map SocketInfo.sock)
    st := { closeAll st ((evicted clock 0 st.sockets).map SocketInfo.sock) with
            sockets := kept clock 0 st.sockets } }

/-! ## Sample inputs -/

/-- A client address. -/
def clientA : SockAddr := { ip := 3232235777, port := 40000 }

/-- Another client address. -/
def clientB : SockAddr := { ip := 3232235778, port := 40001 }

/-- An upstream server address. -/
def sampleServer : SockAddr := { ip := 167772161, port := 1053 }

/-- A state with three entries, created at times 0, 3 and 10; the first and the
third belong to the same client. -/
def sampleState : State :=
  { sockets := [{ sock := 4, addr := clientA, time := 0 },
                { sock := 5, addr := clientB, time := 3 },
                { sock := 6, addr := clientA, time := 10 }]
    client := clientA
    openFds := [4, 5, 6]
    stray := []
    trace := [] }

/-- Loop variables at the call of `select` for `sampleState` and listener 3. -/
def sampleReap : ReapState :=
  { i := 3, ticks := 3, fds := [3, 4, 5, 6], maxSock := 6, st := sampleState }

/-- A pass in which the clock reads 8, sockets 5 and 6 are reported readable and
a datagram of three bytes is received. -/
def sampleEnv : Env :=
  { clock := fun _ => 8
    selectRet := 2
    selectFds := [6, 5]
    dgram := some [171, 205, 1]
    peer := clientB
    newSock := 7
    connectRet := 0
    sendRet := 3 }

/-- A pass in which the listener is reported readable, together with socket 5. -/
def sampleEnvListener : Env :=
  { sampleEnv with selectFds := [3, 5] }

/-- A state with one entry, created at time 0. -/
def lateState : State :=
  { sockets := [{ sock := 4, addr := clientA, time := 0 }]
    client := clientA
    openFds := [4]
    stray := []
    trace := [] }

/-- A pass in which the clock reads 5 when the clearing loop examines the entry
and 100 at any later reading, that is after `select` has returned; socket 4 is
then readable and delivers two bytes. -/
def lateEnv : Env :=
  { clock := fun k => if k = 0 then 5 else 100
    selectRet := 1
    selectFds := [4]
    dgram := some [7, 9]
    peer := clientB
    newSock := 5
    connectRet := 0
    sendRet := 2 }

/-- A pass like `sampleEnv` in which `recv` on the readable socket fails with
`-1` (as it does on a connected UDP socket after an ICMP error) and the
following `sendto` fails as well. -/
def recvFailEnv : Env :=
  { sampleEnv with dgram := none, sendRet := -1 }

/-- A pass like `recvFailEnv` in which the `sendto` is reported as successful. -/
def recvFailEnvSent : Env :=
  { sampleEnv with dgram := none }

/-- Library functions used for the samples: only the text `0.0.0.0` has a known
address. -/
def sampleLibc : Libc :=
  { inet_addr := fun s => if s = "0.0.0.0" then 0 else 4294967295
    atoi := fun _ => 1053 }

/-- A start in which the listener gets descriptor 3, `bind` succeeds and the
name of the server does not resolve. -/
def unresolvedStart : StartEnv :=
  { wsaRet := none
    sockRet := 3
    bindRet := 0
    resolve := fun _ => none
    testSock := 4
    testConnectRet := 0
    getsocknameRet := 0
    ntoaOk := true
    client0 := clientA }

/-! ## Rejected command lines, in the words of the specification -/

/-- The argument is `-h` or `--help`. -/
def isHelp (a : String) : Prop := a = "-h" ∨ a = "--help"

/-- The argument is `-v` or `--verbose`. -/
def isVerbose (a : String) : Prop := a = "-v" ∨ a = "--verbose"

/-- The argument is one of the options that consume the following argument. -/
def takesValue (a : String) : Prop :=
  a = "-a" ∨ a = "--address" ∨ a = "-b" ∨ a = "--bind"

/-- The rejection condition in the words of the specification: scanning from the
left, where `-v` is skipped and a value option is skipped together with the
argument behind it, the scan meets an argument that is no option at all, or a
value option in last position, before it meets a help option. -/
inductive Rejected : List String → Prop where
  | unknown (a : String) (rest : List String) :
      ¬ isHelp a → ¬ isVerbose a → ¬ takesValue a → Rejected (a :: rest)
  | missing (a : String) : takesValue a → Rejected [a]
  | verbose (a : String) (rest : List String) :
      isVerbose a → Rejected rest → Rejected (a :: rest)
  | value (a v : String) (rest : List String) :
      takesValue a → Rejected rest → Rejected (a :: v :: rest)

/-! ## Ownership of the upstream sockets -/

/-- The invariant of the vector: the stored sockets are pairwise distinct,
differ from the listener, are results of successful `socket` calls (an `int`
that is not negative), are exactly the open upstream descriptors, and no `close`
was ever issued on a descriptor that was not open. -/
structure Inv (listener : Int) (st : State) : Prop where
  nodup : (st.sockets.map SocketInfo.sock).Nodup
  notListener : listener ∉ st.sockets.map SocketInfo.sock
  owned : st.openFds = st.sockets.map SocketInfo.sock
  noStray : st.stray = []
  range : ∀ s ∈ st.sockets, 0 ≤ s.sock ∧ s.sock < 2147483648

/-- Assumptions on the operating system in one pass, with `r` the loop state at
the call of `select`: a successful `socket` call returns an `int` that is not
currently open, and `select` reports a non-empty subset of the set it was
given. -/
structure EnvOk (listener : Int) (r : ReapState) (env : Env) : Prop where
  fresh : 0 ≤ env.newSock → env.newSock ∉ r.st.openFds ∧ env.newSock ≠ listener
  isInt : env.newSock < 2147483648
  nonempty : env.selectFds ≠ []
  subset : ∀ fd ∈ env.selectFds, fd ∈ r.fds

/-- States in which the loop can start a pass: the state at entry, and every
state left by a pass that went on under the assumptions `EnvOk`. -/
inductive Reachable (listener : Int) (server : SockAddr) : State → Prop where
  | init (client0 : SockAddr) (tr : List Event) :
      Reachable listener server (initState client0 tr)
  | step (st st1 : State) (env : Env) (fuel : Nat) (r : ReapState) :
      Reachable listener server st →
      st.sockets.length < fuel →
      reapPass listener env.clock fuel st = some r →
      EnvOk listener r env →
      handle listener server env fuel r = some (Outcome.next st1) →
      Reachable listener server st1

/-- A pass in which only the listener is readable and `socket` returns 7. -/
def queryEnv7 : Env :=
  { sampleEnv with selectRet := 1, selectFds := [3], newSock := 7 }

/-- A later pass of the same kind, with the same client, in which `socket`
returns 8. -/
def queryEnv8 : Env :=
  { sampleEnv with selectRet := 1, selectFds := [3], newSock := 8 }

/-- State after the pass `queryEnv7` from the empty vector. -/
def oneQuery : State :=
  { sockets := [{ sock := 7, addr := clientB, time := 8 }]
    client := clientB
    openFds := [7]
    stray := []
    trace := [Event.select 4 [3], Event.recvfrom 3, Event.socket 7,
              Event.connect 7 sampleServer, Event.send 7 (some [171, 205, 1])] }

/-- State after the passes `queryEnv7` and `queryEnv8` from the empty vector. -/
def twoQueries : State :=
  { sockets := [{ sock := 7, addr := clientB, time := 8 },
                { sock := 8, addr := clientB, time := 8 }]
    client := clientB
    openFds := [7, 8]
    stray := []
    trace := [Event.select 4 [3], Event.recvfrom 3, Event.socket 7,
              Event.connect 7 sampleServer, Event.send 7 (some [171, 205, 1]),
              Event.select 8 [3, 7], Event.recvfrom 3, Event.socket 8,
              Event.connect 8 sampleServer, Event.send 8 (some [171, 205, 1])] }

/-- Loop variables at the call of `select` in the first pass. -/
def emptyReap : ReapState :=
  { i := 0, ticks := 0, fds := [3], maxSock := 3, st := initState clientA [] }

/-- Loop variables at the call of `select` in the second pass. -/
def oneQueryReap : ReapState :=
  { i := 1, ticks := 1, fds := [3, 7], maxSock := 7, st := oneQuery }

/-! ## Lemmas on the helpers -/

theorem uInc_uDec (i : Nat) (h : i < 4294967296) : uInc (uDec i) = i := by
  unfold uInc uDec
  omega

theorem uInc_of_lt (i : Nat) (h : i + 1 < 4294967296) : uInc i = i + 1 := by
  unfold uInc
  omega

theorem closeAll_sockets (l : List Int) (st : State) :
    (closeAll st l).sockets = st.sockets := by
  induction l generalizing st with
  | nil => rfl
  | cons a l ih => simp only [closeAll, List.foldl_cons] at ih ⊢; rw [ih]; rfl

theorem closeAll_trace (l : List Int) (st : State) :
    (closeAll st l).trace = st.trace ++ l.map Event.close := by
  induction l generalizing st with
  | nil => simp [closeAll]
  | cons a l ih =>
    simp only [closeAll, List.foldl_cons] at ih ⊢
    rw [ih]
    simp [State.close]

theorem closeAll_openFds (l : List Int) (st : State) :
    (closeAll st l).openFds = l.foldl List.erase st.openFds := by
  induction l generalizing st with
  | nil => rfl
  | cons a l ih => simp only [closeAll, List.foldl_cons] at ih ⊢; rw [ih]; rfl

theorem closeAll_setSockets (l : List Int) (st : State) (x : List SocketInfo) :
    closeAll { st with sockets := x } l = { closeAll st l with sockets := x } := by
  induction l generalizing st with
  | nil => rfl
  | cons a l ih =>
    simp only [closeAll, List.foldl_cons] at ih ⊢
    rw [← ih]
    rfl

theorem kept_length_add_evicted (clock : Nat → Int) (l : List SocketInfo) (k : Nat) :
    (kept clock k l).length + (evicted clock k l).length = l.length := by
  induction l generalizing k with
  | nil => rfl
  | cons s rest ih =>
    simp only [kept, evicted]
    split <;> simp only [List.length_cons] <;> have := ih (k + 1) <;> omega

theorem kept_length_le (clock : Nat → Int) (l : List SocketInfo) (k : Nat) :
    (kept clock k l).length ≤ l.length := by
  have := kept_length_add_evicted clock l k
  omega

/-- With enough fuel, and a vector shorter than `2 ^ 32`, the clearing loop
entered at index `pre.length` ends and has the effect described by `kept` and
`evicted` on the entries from that index on. -/
theorem reapLoop_eq (clock : Nat → Int) (rest : List SocketInfo) :
    ∀ (pre : List SocketInfo) (fuel k : Nat) (fds : List Int) (m : Int) (st : State),
      st.sockets = pre ++ rest → pre.length + rest.length < 4294967296 →
      rest.length < fuel →
      reapLoop clock fuel { i := pre.length, ticks := k, fds := fds, maxSock := m, st := st } =
        some { i := pre.length + (kept clock k rest).length
               ticks := k + rest.length
               fds := fds ++ (kept clock k rest).map SocketInfo.sock
               maxSock := maxOf m ((kept clock k rest).map SocketInfo.sock)
               st := { closeAll st ((evicted clock k rest).map SocketInfo.sock) with
                       sockets := pre ++ kept clock k rest } } := by
  induction rest with
  | nil =>
    intro pre fuel k fds m st hs _ hf
    obtain ⟨fuel, rfl⟩ : ∃ f, fuel = f + 1 := ⟨fuel - 1, by simp at hf; omega⟩
    simp only [List.append_nil] at hs
    cases st
    simp only at hs
    subst hs
    simp [reapLoop, kept, evicted, closeAll, maxOf]
  | cons s rest ih =>
    intro pre fuel k fds m st hs hlen hf
    obtain ⟨fuel, rfl⟩ : ∃ f, fuel = f + 1 := ⟨fuel - 1, by simp at hf; omega⟩
    simp only [List.length_cons] at hlen hf
    have hi : pre.length < st.sockets.length := by rw [hs]; simp
    have hget : st.sockets[pre.length] = s := by
      have h1 : st.sockets[pre.length]? = some s := by
        rw [hs, List.getElem?_append_right (Nat.le_refl _)]
        simp
      have h2 := List.getElem?_eq_getElem hi
      rw [h1] at h2
      exact (Option.some.inj h2).symm
    rw [reapLoop]
    simp only [hi, dite_true, hget]
    by_cases hage : clock k - s.time > 5
    · simp only [hage, if_true]
      have herase : (st.close s.sock).sockets.eraseIdx pre.length = pre ++ rest := by
        show st.sockets.eraseIdx pre.length = pre ++ rest
        rw [hs, List.eraseIdx_append_of_length_le (Nat.le_refl _)]
        simp
      rw [herase, uInc_uDec _ (by omega)]
      have := ih pre fuel (k + 1) fds m { st.close s.sock with sockets := pre ++ rest }
        rfl (by omega) (by omega)
      rw [this]
      simp only [kept, evicted, hage, if_true, List.map_cons]
      congr 1
      have h1 : closeAll { st.close s.sock with sockets := pre ++ rest }
          (List.map SocketInfo.sock (evicted clock (k + 1) rest)) =
          { closeAll st (s.sock :: List.map SocketInfo.sock (evicted clock (k + 1) rest)) with
            sockets := pre ++ rest } := by
        rw [closeAll_setSockets]
        rfl
      rw [h1]
      congr 1
      simp only [List.length_cons]
      omega
    · simp only [hage, if_false]
      rw [uInc_of_lt _ (by omega)]
      have := ih (pre ++ [s]) fuel (k + 1) (fds ++ [s.sock])
        (if s.sock > m then s.sock else m) st (by simp [hs])
        (by simp; omega) (by omega)
      simp only [List.length_append, List.length_singleton] at this
      rw [this]
      simp only [kept, evicted, hage, if_false, List.map_cons, List.length_cons, maxOf,
        List.foldl_cons, List.append_assoc, List.singleton_append]
      rw [Option.some.injEq, ReapState.mk.injEq]
      exact ⟨by omega, by omega, rfl, rfl, rfl⟩

/-- With enough fuel, and a vector shorter than `2 ^ 32`, lines 209 to 237 end
with the result described by `kept` and `evicted`. -/
theorem reapPass_eq (listener : Int) (clock : Nat → Int) (fuel : Nat) (st : State)
    (hlen : st.sockets.length < 4294967296) (hf : st.sockets.length < fuel) :
    reapPass listener clock fuel st = some (afterReap listener clock st) := by
  have h := reapLoop_eq clock st.sockets [] fuel 0 [listener] listener st
    (by simp) (by simpa using hlen) hf
  simp only [List.length_nil, Nat.zero_add, List.nil_append, List.singleton_append] at h
  exact h

/-- One pass of the loop is the clearing loop followed by `handle`. -/
theorem iteration_eq (listener : Int) (server : SockAddr) (fuel : Nat) (env : Env)
    (st : State) (hlen : st.sockets.length < 4294967296) (hf : st.sockets.length < fuel) :
    iteration listener server fuel env st =
      handle listener server env fuel (afterReap listener env.clock st) := by
  unfold iteration
  rw [reapPass_eq listener env.clock fuel st hlen hf]

theorem firstReadable_some {fds : List Int} :
    ∀ {l : List SocketInfo} {n : Nat}, firstReadable fds l = some n →
      ∃ s, l[n]? = some s ∧ s.sock ∈ fds ∧
        ∀ j t, j < n → l[j]? = some t → t.sock ∉ fds := by
  intro l
  induction l with
  | nil => intro n h; simp [firstReadable] at h
  | cons a l ih =>
    intro n h
    simp only [firstReadable] at h
    by_cases ha : a.sock ∈ fds
    · simp only [ha, if_true, Option.some.injEq] at h
      subst h
      exact ⟨a, by simp, ha, by intro j t hj; omega⟩
    · simp only [ha, if_false, Option.map_eq_some'] at h
      obtain ⟨m, hm, rfl⟩ := h
      obtain ⟨s, hs, hsf, hmin⟩ := ih hm
      refine ⟨s, by simpa using hs, hsf, ?_⟩
      intro j t hj hjt
      cases j with
      | zero =>
        simp only [List.getElem?_cons_zero, Option.some.injEq] at hjt
        subst hjt
        exact ha
      | succ j =>
        simp only [List.getElem?_cons_succ] at hjt
        exact hmin j t (by omega) hjt

theorem firstReadable_isSome {fds : List Int} :
    ∀ {l : List SocketInfo}, (∃ s ∈ l, s.sock ∈ fds) → ∃ n, firstReadable fds l = some n := by
  intro l
  induction l with
  | nil => intro h; simp at h
  | cons a l ih =>
    intro h
    simp only [firstReadable]
    by_cases ha : a.sock ∈ fds
    · exact ⟨0, by simp [ha]⟩
    · obtain ⟨s, hs, hsf⟩ := h
      have hs2 : s ∈ l := by
        rcases List.mem_cons.1 hs with rfl | h2
        · exact absurd hsf ha
        · exact h2
      obtain ⟨n, hn⟩ := ih ⟨s, hs2, hsf⟩
      exact ⟨n + 1, by simp [ha, hn]⟩

theorem firstReadable_none {fds : List Int} :
    ∀ {l : List SocketInfo}, (∀ s ∈ l, s.sock ∉ fds) → firstReadable fds l = none := by
  intro l
  induction l with
  | nil => intro _; rfl
  | cons a l ih =>
    intro h
    simp only [firstReadable]
    have ha : a.sock ∉ fds := h a (by simp)
    simp [ha, ih (fun s hs => h s (by simp [hs]))]

/-- With enough fuel, and a vector shorter than `2 ^ 32`, the search loop
entered at index `pre.length` stops by `break` at the first entry from there on
whose socket is set in `fds`. -/
theorem searchLoop_found (fds : List Int) (rest : List SocketInfo) :
    ∀ (pre : List SocketInfo) (fuel n : Nat) (info : Option SocketInfo),
      firstReadable fds rest = some n → pre.length + rest.length < 4294967296 →
      rest.length < fuel →
      searchLoop fds (pre ++ rest) fuel pre.length info =
        some (pre.length + n, rest[n]?, true) := by
  induction rest with
  | nil => intro pre fuel n info h; simp [firstReadable] at h
  | cons s rest ih =>
    intro pre fuel n info h hlen hf
    obtain ⟨fuel, rfl⟩ : ∃ f, fuel = f + 1 := ⟨fuel - 1, by simp at hf; omega⟩
    simp only [List.length_cons] at hlen hf
    have hi : pre.length < (pre ++ s :: rest).length := by simp
    have hget : (pre ++ s :: rest)[pre.length] = s := by
      have h1 : (pre ++ s :: rest)[pre.length]? = some s := by
        rw [List.getElem?_append_right (Nat.le_refl _)]
        simp
      have h2 := List.getElem?_eq_getElem hi
      rw [h1] at h2
      exact (Option.some.inj h2).symm
    rw [searchLoop]
    simp only [hi, dite_true, hget]
    simp only [firstReadable] at h
    by_cases hs : s.sock ∈ fds
    · simp only [hs, if_true, Option.some.injEq] at h ⊢
      subst h
      simp
    · simp only [hs, if_false, Option.map_eq_some'] at h ⊢
      obtain ⟨m, hm, rfl⟩ := h
      rw [uInc_of_lt _ (by omega)]
      have := ih (pre ++ [s]) fuel m (some s) hm (by simp; omega) (by omega)
      simp only [List.length_append, List.length_singleton, List.append_assoc,
        List.singleton_append] at this
      rw [this]
      simp only [List.getElem?_cons_succ, Option.some.injEq, Prod.mk.injEq, and_true]
      omega

theorem toU32_natCast (n : Nat) (h : n < 4294967296) : toU32 (n : Int) = n := by
  unfold toU32
  omega

/-- After a successful receive the following send call takes exactly the bytes
that the receive call stored. -/
theorem readBuf_recvInto (p : List Nat) :
    readBuf (recvInto (some p)).2 (toU32 (recvInto (some p)).1) = some (p.take bufSize) := by
  have hle : (p.take bufSize).length ≤ 32768 := by
    rw [List.length_take]
    exact Nat.min_le_left _ _
  simp only [recvInto]
  rw [toU32_natCast _ (by omega)]
  simp [readBuf]

/-- The reply branch when some entry is readable. -/
theorem relay_found (listener : Int) (env : Env) (fds : List Int) (fuel : Nat) (st : State)
    (n : Nat) (s : SocketInfo)
    (hfirst : firstReadable fds st.sockets = some n) (hs : st.sockets[n]? = some s)
    (hlen : st.sockets.length < 4294967296) (hf : st.sockets.length < fuel) :
    relay listener env fds fuel st =
      some (if env.sendRet < 0 then fatal "Failed to send data" (relayed listener env st n s)
            else Outcome.next (relayed listener env st n s)) := by
  have h := searchLoop_found fds st.sockets [] fuel n none hfirst (by simpa using hlen) hf
  simp only [List.nil_append, List.length_nil, Nat.zero_add, hs] at h
  have hn : n < st.sockets.length := by
    rcases List.getElem?_eq_some.1 hs with ⟨h1, _⟩
    exact h1
  unfold relay
  rw [h]
  simp only [if_true]
  have hn2 : n < ((st.emit (Event.recv s.sock)).close s.sock).sockets.length := hn
  simp only [hn2, if_true]
  split <;> simp [relayed, State.emit, State.close]

theorem kept_const (clock : Nat → Int) (now : Int) (l : List SocketInfo) :
    ∀ k, (∀ j, j < l.length → clock (k + j) = now) →
      kept clock k l = l.filter (fun s => decide (now - s.time ≤ 5)) := by
  induction l with
  | nil => intro k _; rfl
  | cons s rest ih =>
    intro k h
    have h0 : clock k = now := by simpa using h 0 (by simp)
    have hr := ih (k + 1) (fun j hj => by
      have := h (j + 1) (by simp; omega)
      rw [← this]
      congr 1
      omega)
    simp only [kept, h0, hr, List.filter_cons]
    by_cases hage : now - s.time > 5
    · have : ¬ (now - s.time ≤ 5) := by omega
      simp [hage, this]
    · have : now - s.time ≤ 5 := by omega
      simp [hage, this]

theorem evicted_const (clock : Nat → Int) (now : Int) (l : List SocketInfo) :
    ∀ k, (∀ j, j < l.length → clock (k + j) = now) →
      evicted clock k l = l.filter (fun s => decide (now - s.time > 5)) := by
  induction l with
  | nil => intro k _; rfl
  | cons s rest ih =>
    intro k h
    have h0 : clock k = now := by simpa using h 0 (by simp)
    have hr := ih (k + 1) (fun j hj => by
      have := h (j + 1) (by simp; omega)
      rw [← this]
      congr 1
      omega)
    simp only [evicted, h0, hr, List.filter_cons]
    by_cases hage : now - s.time > 5
    · simp [hage]
    · simp [hage]

/-- The branch taken after `select` when the listener is not readable. -/
theorem handle_relay (listener : Int) (server : SockAddr) (env : Env) (fuel : Nat)
    (r : ReapState) (hsel : 0 ≤ env.selectRet) (hlis : listener ∉ env.selectFds) :
    handle listener server env fuel r =
      relay listener env env.selectFds fuel
        (r.st.emit (Event.select (r.maxSock + 1) r.fds)) := by
  unfold handle
  have h1 : ¬ env.selectRet < 0 := by omega
  simp only [h1, hlis, if_false]

/-- The branch taken after `select` when the listener is readable. -/
theorem handle_dispatch (listener : Int) (server : SockAddr) (env : Env) (fuel : Nat)
    (r : ReapState) (hsel : 0 ≤ env.selectRet) (hlis : listener ∈ env.selectFds) :
    handle listener server env fuel r =
      some (dispatch listener server env r.ticks
        (r.st.emit (Event.select (r.maxSock + 1) r.fds))) := by
  unfold handle
  have h1 : ¬ env.selectRet < 0 := by omega
  simp only [h1, hlis, if_false, if_true]

/-- The forwarding branch when every call succeeds. -/
theorem dispatch_ok (listener : Int) (server : SockAddr) (env : Env) (ticks : Nat)
    (st : State) (p : List Nat) (hrecv : env.dgram = some p)
    (hsock : 0 ≤ env.newSock) (hconn : 0 ≤ env.connectRet) (hsend : 0 ≤ env.sendRet) :
    dispatch listener server env ticks st =
      Outcome.next
        { sockets := st.sockets ++
            [{ sock := env.newSock, addr := env.peer, time := env.clock ticks }]
          client := env.peer
          openFds := st.openFds ++ [env.newSock]
          stray := st.stray
          trace := st.trace ++
            [Event.recvfrom listener, Event.socket env.newSock,
             Event.connect env.newSock server,
             Event.send env.newSock (some (p.take bufSize))] } := by
  have h1 : ¬ env.newSock < 0 := by omega
  have h2 : ¬ env.connectRet < 0 := by omega
  have h3 : ¬ env.sendRet < 0 := by omega
  unfold dispatch
  simp only [h1, h2, h3, if_false, hrecv, readBuf_recvInto, Option.isSome_some, if_true]
  simp [State.emit]

theorem afterReap_sockets_length_le (listener : Int) (clock : Nat → Int) (st : State) :
    (afterReap listener clock st).st.sockets.length ≤ st.sockets.length :=
  kept_length_le clock st.sockets 0

/-- The forwarding branch when `socket`, `connect` and `send` succeed, whatever
`recvfrom` returned. -/
theorem dispatch_next (listener : Int) (server : SockAddr) (env : Env) (ticks : Nat)
    (st : State)
    (hsock : 0 ≤ env.newSock) (hconn : 0 ≤ env.connectRet) (hsend : 0 ≤ env.sendRet) :
    dispatch listener server env ticks st =
      Outcome.next
        { sockets := st.sockets ++
            [{ sock := env.newSock
               addr := if env.dgram.isSome then env.peer else st.client
               time := env.clock ticks }]
          client := if env.dgram.isSome then env.peer else st.client
          openFds := st.openFds ++ [env.newSock]
          stray := st.stray
          trace := st.trace ++
            [Event.recvfrom listener, Event.socket env.newSock,
             Event.connect env.newSock server,
             Event.send env.newSock
               (readBuf (recvInto env.dgram).2 (toU32 (recvInto env.dgram).1))] } := by
  have h1 : ¬ env.newSock < 0 := by omega
  have h2 : ¬ env.connectRet < 0 := by omega
  have h3 : ¬ env.sendRet < 0 := by omega
  unfold dispatch
  simp only [h1, h2, h3, if_false]
  simp [State.emit]

theorem maxOf_mem (l : List Int) : ∀ m : Int, maxOf m l ∈ m :: l := by
  induction l with
  | nil => intro m; simp [maxOf]
  | cons a l ih =>
    intro m
    have h := ih (if a > m then a else m)
    simp only [maxOf, List.foldl_cons] at h ⊢
    rcases List.mem_cons.1 h with h1 | h1
    · rw [h1]
      by_cases ha : a > m <;> simp [ha]
    · exact List.mem_cons_of_mem _ (List.mem_cons_of_mem _ h1)

theorem le_maxOf (l : List Int) : ∀ m : Int, ∀ x ∈ m :: l, x ≤ maxOf m l := by
  induction l with
  | nil => intro m x hx; simp at hx; simp [maxOf, hx]
  | cons a l ih =>
    intro m x hx
    have h := ih (if a > m then a else m)
    simp only [maxOf, List.foldl_cons] at h ⊢
    have hm : m ≤ (if a > m then a else m) := by split <;> omega
    have ha : a ≤ (if a > m then a else m) := by split <;> omega
    have htop := h _ (List.mem_cons_self _ _)
    rcases List.mem_cons.1 hx with rfl | hx
    · exact Int.le_trans hm htop
    · rcases List.mem_cons.1 hx with rfl | hx
      · exact Int.le_trans ha htop
      · exact h x (List.mem_cons_of_mem _ hx)

/-- The argument loop returns 1 on every list the specification rejects. -/
theorem parseArgs_rejected {args : List String} (h : Rejected args) :
    ∀ cfg, parseArgs args cfg = ArgResult.exit 1 := by
  induction h with
  | unknown a rest hh hv ht =>
    intro cfg
    simp only [isHelp, isVerbose, takesValue, not_or] at hh hv ht
    unfold parseArgs
    simp [hh.1, hh.2, hv.1, hv.2, ht.1, ht.2.1, ht.2.2.1, ht.2.2.2]
  | missing a ht =>
    intro cfg
    rcases ht with rfl | rfl | rfl | rfl <;> simp [parseArgs]
  | verbose a rest hv _ ih =>
    intro cfg
    rcases hv with rfl | rfl <;> (unfold parseArgs; simp [ih])
  | value a v rest ht _ ih =>
    intro cfg
    rcases ht with rfl | rfl | rfl | rfl <;> (unfold parseArgs; simp [ih])

/-! ## Lemmas for the ownership invariant -/

theorem kept_sublist (clock : Nat → Int) (l : List SocketInfo) :
    ∀ k, (kept clock k l).Sublist l := by
  induction l with
  | nil => intro k; exact List.Sublist.refl _
  | cons s rest ih =>
    intro k
    simp only [kept]
    split
    · exact List.Sublist.cons _ (ih (k + 1))
    · exact List.Sublist.cons₂ _ (ih (k + 1))

/-- Closing the socket of entry `n` of a vector with distinct sockets leaves the
sockets of the vector without entry `n`. -/
theorem erase_sock_eq_eraseIdx :
    ∀ (l : List SocketInfo) (n : Nat) (s : SocketInfo),
      (l.map SocketInfo.sock).Nodup → l[n]? = some s →
      (l.map SocketInfo.sock).erase s.sock = (l.eraseIdx n).map SocketInfo.sock := by
  intro l
  induction l with
  | nil => intro n s _ h; simp at h
  | cons a l ih =>
    intro n s hnd h
    cases n with
    | zero =>
      simp only [List.getElem?_cons_zero, Option.some.injEq] at h
      subst h
      simp
    | succ n =>
      simp only [List.getElem?_cons_succ] at h
      simp only [List.map_cons, List.nodup_cons] at hnd
      have hne : a.sock ≠ s.sock := by
        intro heq
        exact hnd.1 (heq ▸ List.mem_map_of_mem _ (List.getElem?_mem h))
      simp only [List.map_cons, List.eraseIdx_cons_succ]
      rw [List.erase_cons_tail (by simpa using hne), ih n s hnd.2 h]

/-- Effect of the `close` calls of the clearing loop on the bookkeeping of open
descriptors, for a vector with distinct sockets all of which are open. -/
theorem closeAll_evicted (clock : Nat → Int) (rest : List SocketInfo) :
    ∀ (pre : List SocketInfo) (k : Nat) (st : State),
      st.openFds = (pre ++ rest).map SocketInfo.sock →
      ((pre ++ rest).map SocketInfo.sock).Nodup →
      (closeAll st ((evicted clock k rest).map SocketInfo.sock)).openFds =
          (pre ++ kept clock k rest).map SocketInfo.sock ∧
        (closeAll st ((evicted clock k rest).map SocketInfo.sock)).stray = st.stray := by
  induction rest with
  | nil =>
    intro pre k st ho _
    simp [evicted, kept, closeAll, ho]
  | cons s rest ih =>
    intro pre k st ho hnd
    by_cases hage : clock k - s.time > 5
    · simp only [evicted, kept, hage, if_true, List.map_cons]
      have hnotin : s.sock ∉ pre.map SocketInfo.sock := by
        intro hin
        rw [List.map_append, List.map_cons] at hnd
        exact (List.nodup_append.1 hnd).2.2 hin (List.mem_cons_self _ _)
      have hmem : s.sock ∈ st.openFds := by rw [ho]; simp
      have ho2 : (st.close s.sock).openFds = (pre ++ rest).map SocketInfo.sock := by
        show st.openFds.erase s.sock = _
        rw [ho, List.map_append, List.map_cons, List.erase_append_right _ hnotin,
          List.erase_cons_head, List.map_append]
      have hnd2 : ((pre ++ rest).map SocketInfo.sock).Nodup := by
        refine List.Nodup.sublist ?_ hnd
        exact List.Sublist.map _ (List.Sublist.append_left (List.sublist_cons_self _ _) _)
      have hst : (st.close s.sock).stray = st.stray := by
        simp [State.close, hmem]
      have := ih pre (k + 1) (st.close s.sock) ho2 hnd2
      rw [hst] at this
      exact this
    · simp only [evicted, kept, hage, if_false]
      have := ih (pre ++ [s]) (k + 1) st (by simpa using ho) (by simpa using hnd)
      simpa using this

/-- A list of distinct integers from `0` to `N - 1` has at most `N` members. -/
theorem length_le_of_nodup_range (l : List Int) (N : Nat) (hnd : l.Nodup)
    (hr : ∀ x ∈ l, 0 ≤ x ∧ x < N) : l.length ≤ N := by
  have hinj : ∀ x ∈ l, ∀ y ∈ l, Int.toNat x = Int.toNat y → x = y := by
    intro x hx y hy hxy
    have := hr x hx
    have := hr y hy
    omega
  have hnd2 : (l.map Int.toNat).Nodup := List.Nodup.map_on hinj hnd
  have hsub : (l.map Int.toNat).toFinset ⊆ Finset.range N := by
    intro x hx
    simp only [List.mem_toFinset, List.mem_map] at hx
    obtain ⟨y, hy, rfl⟩ := hx
    have := hr y hy
    simp only [Finset.mem_range]
    omega
  have hcard := Finset.card_le_card hsub
  rw [List.toFinset_card_of_nodup hnd2, Finset.card_range, List.length_map] at hcard
  exact hcard

/-- Under the invariant the vector has fewer than `2 ^ 32` entries. -/
theorem inv_length_lt {listener : Int} {st : State} (h : Inv listener st) :
    st.sockets.length < 4294967296 := by
  have := length_le_of_nodup_range (st.sockets.map SocketInfo.sock) 2147483648 h.nodup
    (by
      intro x hx
      obtain ⟨s, hs, rfl⟩ := List.mem_map.1 hx
      have := h.range s hs
      exact ⟨this.1, by simpa using this.2⟩)
  rw [List.length_map] at this
  omega

/-- The clearing loop keeps the invariant. -/
theorem inv_afterReap {listener : Int} {st : State} (h : Inv listener st)
    (clock : Nat → Int) : Inv listener (afterReap listener clock st).st := by
  have hsub := kept_sublist clock st.sockets 0
  have hc := closeAll_evicted clock st.sockets [] 0 st (by simpa using h.owned)
    (by simpa using h.nodup)
  simp only [List.nil_append] at hc
  refine ⟨?_, ?_, ?_, ?_, ?_⟩
  · exact List.Nodup.sublist (List.Sublist.map _ hsub) h.nodup
  · intro hin
    exact h.notListener ((List.Sublist.map _ hsub).subset hin)
  · exact hc.1
  · show (closeAll st _).stray = []
    rw [hc.2, h.noStray]
  · intro s hs
    exact h.range s (hsub.subset hs)

/-- When the forwarding branch lets the loop go on, `socket` succeeded and the
state is the old one with one entry and one open descriptor more. -/
theorem dispatch_next_inv (listener : Int) (server : SockAddr) (env : Env) (ticks : Nat)
    (st st1 : State) (h : dispatch listener server env ticks st = Outcome.next st1) :
    0 ≤ env.newSock ∧
    st1.sockets = st.sockets ++
      [{ sock := env.newSock
         addr := if env.dgram.isSome then env.peer else st.client
         time := env.clock ticks }] ∧
    st1.openFds = st.openFds ++ [env.newSock] ∧ st1.stray = st.stray := by
  by_cases h1 : env.newSock < 0
  · simp [dispatch, h1, fatal] at h
  · by_cases h2 : env.connectRet < 0
    · simp [dispatch, h1, h2, fatal] at h
    · by_cases h3 : env.sendRet < 0
      · simp [dispatch, h1, h2, h3, fatal] at h
      · rw [dispatch_next listener server env ticks st (by omega) (by omega) (by omega)] at h
        cases h
        exact ⟨by omega, rfl, rfl, rfl⟩

/-- The branches after `select` keep the invariant when the loop goes on. -/
theorem inv_handle {listener : Int} {server : SockAddr} {env : Env} {fuel : Nat}
    {r : ReapState} {st1 : State} (h : Inv listener r.st) (hok : EnvOk listener r env)
    (hfds : ∀ fd ∈ r.fds, fd = listener ∨ ∃ s ∈ r.st.sockets, s.sock = fd)
    (hfuel : r.st.sockets.length < fuel)
    (hstep : handle listener server env fuel r = some (Outcome.next st1)) :
    Inv listener st1 := by
  by_cases hsel : env.selectRet < 0
  · simp [handle, hsel, fatal] at hstep
  · by_cases hlis : listener ∈ env.selectFds
    · rw [handle_dispatch listener server env fuel r (by omega) hlis] at hstep
      have hd := dispatch_next_inv listener server env r.ticks _ st1 (Option.some.inj hstep)
      obtain ⟨hpos, hso, hop, hstr⟩ := hd
      have hfresh := hok.fresh hpos
      have hnotin : env.newSock ∉ r.st.sockets.map SocketInfo.sock := by
        rw [← h.owned]
        exact hfresh.1
      refine ⟨?_, ?_, ?_, ?_, ?_⟩
      · rw [hso]
        show ((r.st.sockets ++ _).map SocketInfo.sock).Nodup
        rw [List.map_append]
        refine List.Nodup.append h.nodup (by simp) ?_
        intro x hx hx2
        simp only [List.map_cons, List.map_nil, List.mem_singleton] at hx2
        subst hx2
        exact hnotin hx
      · rw [hso]
        show listener ∉ (r.st.sockets ++ _).map SocketInfo.sock
        rw [List.map_append]
        intro hin
        rcases List.mem_append.1 hin with hin | hin
        · exact h.notListener hin
        · simp only [List.map_cons, List.map_nil, List.mem_singleton] at hin
          exact hfresh.2 hin.symm
      · rw [hop, hso]
        show r.st.openFds ++ _ = (r.st.sockets ++ _).map SocketInfo.sock
        rw [List.map_append, h.owned]
        rfl
      · rw [hstr]
        exact h.noStray
      · intro s hs
        rw [hso] at hs
        rcases List.mem_append.1 hs with hs | hs
        · exact h.range s hs
        · simp only [List.mem_singleton] at hs
          subst hs
          exact ⟨hpos, hok.isInt⟩
    · have hready : ∃ s ∈ r.st.sockets, s.sock ∈ env.selectFds := by
        obtain ⟨fd, hfd⟩ := List.exists_mem_of_ne_nil _ hok.nonempty
        rcases hfds fd (hok.subset fd hfd) with rfl | ⟨s, hs, rfl⟩
        · exact absurd hfd hlis
        · exact ⟨s, hs, hfd⟩
      obtain ⟨n, hn⟩ := firstReadable_isSome hready
      obtain ⟨s, hs, _, _⟩ := firstReadable_some hn
      have hl := inv_length_lt h
      have hrel := relay_found listener env env.selectFds fuel
        (r.st.emit (Event.select (r.maxSock + 1) r.fds)) n s hn hs hl hfuel
      rw [← handle_relay listener server env fuel r (by omega) hlis, hstep] at hrel
      by_cases hsend : env.sendRet < 0
      · simp [hsend, fatal] at hrel
      · simp only [hsend, if_false, Option.some.injEq, Outcome.next.injEq] at hrel
        subst hrel
        have hsmem : s ∈ r.st.sockets := List.getElem?_mem hs
        have hsub : (r.st.sockets.eraseIdx n).Sublist r.st.sockets :=
          List.eraseIdx_sublist _ _
        refine ⟨?_, ?_, ?_, ?_, ?_⟩
        · exact List.Nodup.sublist (List.Sublist.map _ hsub) h.nodup
        · intro hin
          exact h.notListener ((List.Sublist.map _ hsub).subset hin)
        · show r.st.openFds.erase s.sock = (r.st.sockets.eraseIdx n).map SocketInfo.sock
          rw [h.owned]
          exact erase_sock_eq_eraseIdx r.st.sockets n s h.nodup hs
        · show (if s.sock ∈ r.st.openFds then r.st.stray else r.st.stray ++ [s.sock]) = []
          have : s.sock ∈ r.st.openFds := by
            rw [h.owned]
            exact List.mem_map_of_mem _ hsmem
          simp [this, h.noStray]
        · intro t ht
          exact h.range t (hsub.subset ht)

/-! ## The reply branch when no socket of the vector is readable -/

/-- With enough fuel, and a vector shorter than `2 ^ 32`, the search loop
entered at index `pre.length` runs to the end when no entry from there on has
its socket in `fds`: the index ends at the size of the vector and `info` holds
the last entry looked at, or its old content when there was none. -/
theorem searchLoop_not_found (fds : List Int) (rest : List SocketInfo) :
    ∀ (pre : List SocketInfo) (fuel : Nat) (info : Option SocketInfo),
      (∀ t ∈ rest, t.sock ∉ fds) → pre.length + rest.length < 4294967296 →
      rest.length < fuel →
      searchLoop fds (pre ++ rest) fuel pre.length info =
        some (pre.length + rest.length, rest.getLast?.or info, false) := by
  induction rest with
  | nil =>
    intro pre fuel info _ _ hf
    obtain ⟨fuel, rfl⟩ : ∃ f, fuel = f + 1 := ⟨fuel - 1, by simp at hf; omega⟩
    simp [searchLoop]
  | cons s rest ih =>
    intro pre fuel info hnone hlen hf
    obtain ⟨fuel, rfl⟩ : ∃ f, fuel = f + 1 := ⟨fuel - 1, by simp at hf; omega⟩
    simp only [List.length_cons] at hlen hf
    have hi : pre.length < (pre ++ s :: rest).length := by simp
    have hget : (pre ++ s :: rest)[pre.length] = s := by
      have h1 : (pre ++ s :: rest)[pre.length]? = some s := by
        rw [List.getElem?_append_right (Nat.le_refl _)]
        simp
      have h2 := List.getElem?_eq_getElem hi
      rw [h1] at h2
      exact (Option.some.inj h2).symm
    have hs : s.sock ∉ fds := hnone s (List.mem_cons_self _ _)
    rw [searchLoop]
    simp only [hi, dite_true, hget, hs, if_false]
    rw [uInc_of_lt _ (by omega)]
    have := ih (pre ++ [s]) fuel (some s)
      (fun t ht => hnone t (List.mem_cons_of_mem _ ht)) (by simp; omega) (by omega)
    simp only [List.length_append, List.length_singleton, List.append_assoc,
      List.singleton_append] at this
    rw [this]
    have hlast : rest.getLast?.or (some s) = (s :: rest).getLast?.or info := by
      cases rest with
      | nil => simp
      | cons b rest2 =>
        rw [List.getLast?_cons_cons]
        cases hb : (b :: rest2).getLast? with
        | none => simp at hb
        | some x => simp
    simp only [List.length_cons, hlast, Option.some.injEq, Prod.mk.injEq, and_true]
    omega

/-- The reply branch on a non-empty vector none of whose sockets is readable:
the socket of the last entry is closed, the entry stays in the vector, and the
branch arrives at the erase at the end of the vector. -/
theorem relay_not_found (listener : Int) (env : Env) (fds : List Int) (fuel : Nat)
    (st : State) (s : SocketInfo)
    (hnone : ∀ t ∈ st.sockets, t.sock ∉ fds) (hlast : st.sockets.getLast? = some s)
    (hlen : st.sockets.length < 4294967296) (hf : st.sockets.length < fuel) :
    relay listener env fds fuel st = some (Outcome.undefined (st.close s.sock)) := by
  have h := searchLoop_not_found fds st.sockets [] fuel none hnone (by simpa using hlen) hf
  simp only [List.nil_append, List.length_nil, Nat.zero_add, hlast, Option.or_some] at h
  unfold relay
  rw [h]
  simp [State.close]

/-! ## The claims -/

/-- Reply routing when `recv` delivers a datagram.  Take any loop state at the
call of `select` and any answer of `select` in which the listener is not
readable while the socket of some entry of the vector is, and let `recv` return
the datagram `p`.  Then the pass serves the entry `s` of lowest index `n` whose
socket is readable: it calls `recv` on `s.sock`, closes it, erases entry `n` and
calls `sendto` on the listener with exactly the bytes that `recv` stored (`p`
cut to the buffer size) and with destination `s.addr`.  This `sendto` is the
only one of the pass, so no datagram goes to the address of any other entry. -/
theorem reply_routed_to_first_readable (listener : Int) (server : SockAddr) (env : Env)
    (fuel : Nat) (r : ReapState) (p : List Nat)
    (hlen : r.st.sockets.length < 4294967296) (hfuel : r.st.sockets.length < fuel)
    (hsel : 0 ≤ env.selectRet) (hlis : listener ∉ env.selectFds)
    (hready : ∃ s ∈ r.st.sockets, s.sock ∈ env.selectFds)
    (hrecv : env.dgram = some p) :
    ∃ (n : Nat) (s : SocketInfo) (out : Outcome),
      r.st.sockets[n]? = some s ∧ s.sock ∈ env.selectFds ∧
      (∀ j t, j < n → r.st.sockets[j]? = some t → t.sock ∉ env.selectFds) ∧
      handle listener server env fuel r = some out ∧
      (out = Outcome.next out.state ∨ out = Outcome.exit 1 out.state) ∧
      out.state.sockets = r.st.sockets.eraseIdx n ∧
      out.state.trace = r.st.trace ++
        [Event.select (r.maxSock + 1) r.fds, Event.recv s.sock, Event.close s.sock,
         Event.sendto listener (some (p.take bufSize)) s.addr] ++
        (if env.sendRet < 0 then [Event.perror "Failed to send data"] else []) ∧
      (∀ fd pl dest, Event.sendto fd pl dest ∈ out.state.trace.drop r.st.trace.length →
        fd = listener ∧ pl = some (p.take bufSize) ∧ dest = s.addr) := by
  obtain ⟨n, hn⟩ := firstReadable_isSome hready
  obtain ⟨s, hs, hsf, hmin⟩ := firstReadable_some hn
  have hrel := relay_found listener env env.selectFds fuel
    (r.st.emit (Event.select (r.maxSock + 1) r.fds)) n s hn hs hlen hfuel
  rw [← handle_relay listener server env fuel r hsel hlis] at hrel
  refine ⟨n, s, _, hs, hsf, hmin, hrel, ?_⟩
  by_cases hsend : env.sendRet < 0
  · simp only [hsend, if_true, fatal, printError, Outcome.state, relayed, State.emit,
      hrecv, readBuf_recvInto]
    simp
  · simp only [hsend, if_false, Outcome.state, relayed, State.emit, hrecv, readBuf_recvInto]
    simp

/-- Example of reply routing: three entries, sockets 6 and 5 readable; entry 1
(socket 5, client B) is served. -/
theorem reply_routed_to_first_readable_witness :
    ∃ (n : Nat) (s : SocketInfo) (out : Outcome),
      sampleReap.st.sockets[n]? = some s ∧ s.sock ∈ sampleEnv.selectFds ∧
      (∀ j t, j < n → sampleReap.st.sockets[j]? = some t → t.sock ∉ sampleEnv.selectFds) ∧
      handle 3 sampleServer sampleEnv 4 sampleReap = some out ∧
      (out = Outcome.next out.state ∨ out = Outcome.exit 1 out.state) ∧
      out.state.sockets = sampleReap.st.sockets.eraseIdx n ∧
      out.state.trace = sampleReap.st.trace ++
        [Event.select (sampleReap.maxSock + 1) sampleReap.fds, Event.recv s.sock,
         Event.close s.sock,
         Event.sendto 3 (some ([171, 205, 1].take bufSize)) s.addr] ++
        (if sampleEnv.sendRet < 0 then [Event.perror "Failed to send data"] else []) ∧
      (∀ fd pl dest,
        Event.sendto fd pl dest ∈ out.state.trace.drop sampleReap.st.trace.length →
        fd = 3 ∧ pl = some ([171, 205, 1].take bufSize) ∧ dest = s.addr) :=
  reply_routed_to_first_readable 3 sampleServer sampleEnv 4 sampleReap [171, 205, 1]
    (by decide) (by decide) (by decide) (by decide)
    ⟨{ sock := 5, addr := clientB, time := 3 }, by decide, by decide⟩ rfl

/-- C1 (reply routing), evaluated on the program where `recv` fails.  The
return value of `recv` at line 289 is stored in the `unsigned int len` without a
test, unlike the results of `select`, `socket`, `connect`, `send` and `sendto`.
With the three entries of `sampleState`, sockets 6 and 5 reported readable and
`recv` on socket 5 returning `-1`, `len` becomes `2 ^ 32 - 1`; the pass closes
socket 5, erases its entry and calls `sendto` on the listener for client B with
`len` bytes of a buffer into which nothing was received.  The bytes handed to
`sendto` are therefore not bytes received from the upstream socket.  When that
`sendto` fails `main` returns 1; were it to succeed the loop would go on. -/
theorem failed_recv_is_relayed :
    toU32 (recvInto recvFailEnv.dgram).1 = 4294967295 ∧
    (recvInto recvFailEnv.dgram).2 = [] ∧
    handle 3 sampleServer recvFailEnv 4 sampleReap =
      some (Outcome.exit 1
        { sockets := [{ sock := 4, addr := clientA, time := 0 },
                      { sock := 6, addr := clientA, time := 10 }]
          client := clientA
          openFds := [4, 6]
          stray := []
          trace := [Event.select 7 [3, 4, 5, 6], Event.recv 5, Event.close 5,
                    Event.sendto 3 none clientB, Event.perror "Failed to send data"] }) ∧
    handle 3 sampleServer recvFailEnvSent 4 sampleReap =
      some (Outcome.next
        { sockets := [{ sock := 4, addr := clientA, time := 0 },
                      { sock := 6, addr := clientA, time := 10 }]
          client := clientA
          openFds := [4, 6]
          stray := []
          trace := [Event.select 7 [3, 4, 5, 6], Event.recv 5, Event.close 5,
                    Event.sendto 3 none clientB] }) := by
  refine ⟨by decide, by decide, by decide, by decide⟩

/-- C2 (forward fidelity and creation of the entry).  Take any loop state at the
call of `select` and any answer in which the listener is readable, `recvfrom`
delivers a datagram `p` of at most 32768 bytes (possibly none) and `socket`,
`connect` and `send` succeed.  Then the pass calls `send` on the new socket with
exactly the bytes `p` and appends to the vector the entry made of the new
socket, the sender reported by `recvfrom` and the value of `time(NULL)` read at
that point; nothing else in the vector changes. -/
theorem forward_sends_payload_and_appends (listener : Int) (server : SockAddr) (env : Env)
    (fuel : Nat) (r : ReapState) (p : List Nat)
    (hsel : 0 ≤ env.selectRet) (hlis : listener ∈ env.selectFds)
    (hrecv : env.dgram = some p) (hp : p.length ≤ 32768)
    (hsock : 0 ≤ env.newSock) (hconn : 0 ≤ env.connectRet) (hsend : 0 ≤ env.sendRet) :
    handle listener server env fuel r =
      some (Outcome.next
        { sockets := r.st.sockets ++
            [{ sock := env.newSock, addr := env.peer, time := env.clock r.ticks }]
          client := env.peer
          openFds := r.st.openFds ++ [env.newSock]
          stray := r.st.stray
          trace := r.st.trace ++
            [Event.select (r.maxSock + 1) r.fds, Event.recvfrom listener,
             Event.socket env.newSock, Event.connect env.newSock server,
             Event.send env.newSock (some p)] }) := by
  rw [handle_dispatch listener server env fuel r hsel hlis,
    dispatch_ok listener server env r.ticks _ p hrecv hsock hconn hsend]
  have htake : p.take bufSize = p := List.take_of_length_le (by simpa [bufSize] using hp)
  simp [State.emit, htake]

/-- Witness of C2: the listener (3) and socket 5 are readable; the datagram of
three bytes goes out on the new socket 7 and an entry for client B is added. -/
theorem forward_sends_payload_and_appends_witness :
    handle 3 sampleServer sampleEnvListener 0 sampleReap =
      some (Outcome.next
        { sockets := sampleReap.st.sockets ++
            [{ sock := 7, addr := clientB, time := 8 }]
          client := clientB
          openFds := [4, 5, 6, 7]
          stray := []
          trace :=
            [Event.select 7 [3, 4, 5, 6], Event.recvfrom 3, Event.socket 7,
             Event.connect 7 sampleServer, Event.send 7 (some [171, 205, 1])] }) :=
  forward_sends_payload_and_appends 3 sampleServer sampleEnvListener 0 sampleReap
    [171, 205, 1] (by decide) (by decide) rfl (by decide) (by decide) (by decide) (by decide)

/-- C3 (the clearing loop).  For a vector of fewer than `2 ^ 32` entries (the
range of the `unsigned int` index) and a clock that reads `now` throughout, the
loop of lines 213 to 237 ends once the fuel exceeds the length of the vector.
It leaves exactly the entries with `now - time ≤ 5`, in their order, and issues
`close` exactly on the sockets of the entries with `now - time > 5`, in their
order; an entry of age exactly 5 stays.  Every entry is examined once (one clock
reading per entry), the index ends at the new size, and after an erase at index
0 the `i--` gives `2 ^ 32 - 1` and the `i++` of the loop gives 0 again. -/
theorem reap_keeps_fresh_closes_stale (listener : Int) (now : Int) (fuel : Nat) (st : State)
    (hlen : st.sockets.length < 4294967296) (hfuel : st.sockets.length < fuel) :
    ∃ r, reapPass listener (fun _ => now) fuel st = some r ∧
      r.st.sockets = st.sockets.filter (fun s => decide (now - s.time ≤ 5)) ∧
      r.st.trace = st.trace ++
        (st.sockets.filter (fun s => decide (now - s.time > 5))).map
          (fun s => Event.close s.sock) ∧
      (∀ s ∈ st.sockets, now - s.time = 5 → s ∈ r.st.sockets) ∧
      r.ticks = st.sockets.length ∧ r.i = r.st.sockets.length ∧
      uDec 0 = 4294967295 ∧ uInc (uDec 0) = 0 := by
  have hk := kept_const (fun _ => now) now st.sockets 0 (fun _ _ => rfl)
  have he := evicted_const (fun _ => now) now st.sockets 0 (fun _ _ => rfl)
  refine ⟨_, reapPass_eq listener (fun _ => now) fuel st hlen hfuel, ?_⟩
  simp only [afterReap, hk, he, closeAll_trace, List.map_map]
  refine ⟨trivial, rfl, ?_, trivial, trivial, by decide, by decide⟩
  intro s hs hage
  exact List.mem_filter.2 ⟨hs, by simp [hage]⟩

/-- Witness of C3: at time 8 the entry created at 0 is erased at index 0, the
entries created at 3 (age exactly 5) and 10 stay. -/
theorem reap_keeps_fresh_closes_stale_witness :
    ∃ r, reapPass 3 (fun _ => 8) 4 sampleState = some r ∧
      r.st.sockets = sampleState.sockets.filter (fun s => decide ((8 : Int) - s.time ≤ 5)) ∧
      r.st.trace = sampleState.trace ++
        (sampleState.sockets.filter (fun s => decide ((8 : Int) - s.time > 5))).map
          (fun s => Event.close s.sock) ∧
      (∀ s ∈ sampleState.sockets, (8 : Int) - s.time = 5 → s ∈ r.st.sockets) ∧
      r.ticks = sampleState.sockets.length ∧ r.i = r.st.sockets.length ∧
      uDec 0 = 4294967295 ∧ uInc (uDec 0) = 0 :=
  reap_keeps_fresh_closes_stale 3 8 4 sampleState (by decide) (by decide)

/-- C9 (the served entry is in the vector).  For a vector of fewer than `2 ^ 32`
entries and enough fuel, the clearing loop ends with an `fd_set` that holds
exactly the listener and the sockets of the entries left in the vector, and with
`maxSock` the largest of these descriptors; `select` is called with that set
and `maxSock + 1`.  If `select` then reports a
non-empty subset of that set which does not contain the listener, the search
loop leaves by `break` at an index `n` below the size of the vector with `info`
equal to entry `n`; the pass does not reach an operation without defined
behaviour, the erase is at index `n`, and the socket closed and the address
used for `sendto` are those of that entry of the vector. -/
theorem served_entry_in_bounds (listener : Int) (server : SockAddr) (fuel : Nat) (env : Env)
    (st : State)
    (hlen : st.sockets.length < 4294967296) (hfuel : st.sockets.length < fuel) :
    ∃ r, reapPass listener env.clock fuel st = some r ∧
      (∀ fd, fd ∈ r.fds ↔ fd = listener ∨ ∃ s ∈ r.st.sockets, s.sock = fd) ∧
      r.maxSock ∈ r.fds ∧ (∀ fd ∈ r.fds, fd ≤ r.maxSock) ∧
      (0 ≤ env.selectRet → env.selectFds ≠ [] → (∀ fd ∈ env.selectFds, fd ∈ r.fds) →
        listener ∉ env.selectFds →
        ∃ n s out,
          searchLoop env.selectFds r.st.sockets fuel 0 none = some (n, some s, true) ∧
          n < r.st.sockets.length ∧ r.st.sockets[n]? = some s ∧ s ∈ r.st.sockets ∧
          iteration listener server fuel env st = some out ∧
          (out = Outcome.next out.state ∨ out = Outcome.exit 1 out.state) ∧
          out.state.sockets = r.st.sockets.eraseIdx n ∧
          Event.select (r.maxSock + 1) r.fds ∈ out.state.trace ∧
          Event.close s.sock ∈ out.state.trace ∧
          ∃ pl, Event.sendto listener pl s.addr ∈ out.state.trace) := by
  have hle := afterReap_sockets_length_le listener env.clock st
  refine ⟨_, reapPass_eq listener env.clock fuel st hlen hfuel, ?_, ?_, ?_, ?_⟩
  · intro fd
    simp only [afterReap, List.mem_cons, List.mem_map]
  · exact maxOf_mem _ _
  · exact le_maxOf _ _
  · intro hsel hne hsub hlis
    have hready : ∃ s ∈ (afterReap listener env.clock st).st.sockets,
        s.sock ∈ env.selectFds := by
      obtain ⟨fd, hfd⟩ := List.exists_mem_of_ne_nil _ hne
      have h1 := hsub fd hfd
      simp only [afterReap, List.mem_cons, List.mem_map] at h1
      rcases h1 with rfl | ⟨s, hs, rfl⟩
      · exact absurd hfd hlis
      · exact ⟨s, hs, hfd⟩
    obtain ⟨n, hn⟩ := firstReadable_isSome hready
    obtain ⟨s, hs, _, _⟩ := firstReadable_some hn
    have hl1 := Nat.lt_of_le_of_lt hle hlen
    have hl2 := Nat.lt_of_le_of_lt hle hfuel
    have hsearch := searchLoop_found env.selectFds (afterReap listener env.clock st).st.sockets
      [] fuel n none hn (by simpa using hl1) hl2
    simp only [List.nil_append, List.length_nil, Nat.zero_add, hs] at hsearch
    have hrel := relay_found listener env env.selectFds fuel
      ((afterReap listener env.clock st).st.emit
        (Event.select ((afterReap listener env.clock st).maxSock + 1)
          (afterReap listener env.clock st).fds)) n s hn hs hl1 hl2
    rw [← handle_relay listener server env fuel _ hsel hlis,
      ← iteration_eq listener server fuel env st hlen hfuel] at hrel
    refine ⟨n, s, _, hsearch, (List.getElem?_eq_some.1 hs).1, hs,
      List.getElem?_mem hs, hrel, ?_, ?_, ?_, ?_, ?_⟩
    · by_cases hsend : env.sendRet < 0 <;>
        simp [hsend, fatal, printError, Outcome.state]
    · by_cases hsend : env.sendRet < 0 <;>
        simp [hsend, fatal, printError, Outcome.state, relayed, State.emit]
    · by_cases hsend : env.sendRet < 0 <;>
        simp [hsend, fatal, printError, Outcome.state, relayed, State.emit]
    · by_cases hsend : env.sendRet < 0 <;>
        simp [hsend, fatal, printError, Outcome.state, relayed, State.emit]
    · refine ⟨readBuf (recvInto env.dgram).2 (toU32 (recvInto env.dgram).1), ?_⟩
      by_cases hsend : env.sendRet < 0 <;>
        simp [hsend, fatal, printError, Outcome.state, relayed, State.emit]

/-- Witness of C9: `sampleState` at time 8, sockets 6 and 5 reported readable. -/
theorem served_entry_in_bounds_witness :
    ∃ r, reapPass 3 sampleEnv.clock 4 sampleState = some r ∧
      (∀ fd, fd ∈ r.fds ↔ fd = 3 ∨ ∃ s ∈ r.st.sockets, s.sock = fd) ∧
      r.maxSock ∈ r.fds ∧ (∀ fd ∈ r.fds, fd ≤ r.maxSock) ∧
      (0 ≤ sampleEnv.selectRet → sampleEnv.selectFds ≠ [] →
        (∀ fd ∈ sampleEnv.selectFds, fd ∈ r.fds) → (3 : Int) ∉ sampleEnv.selectFds →
        ∃ n s out,
          searchLoop sampleEnv.selectFds r.st.sockets 4 0 none = some (n, some s, true) ∧
          n < r.st.sockets.length ∧ r.st.sockets[n]? = some s ∧ s ∈ r.st.sockets ∧
          iteration 3 sampleServer 4 sampleEnv sampleState = some out ∧
          (out = Outcome.next out.state ∨ out = Outcome.exit 1 out.state) ∧
          out.state.sockets = r.st.sockets.eraseIdx n ∧
          Event.select (r.maxSock + 1) r.fds ∈ out.state.trace ∧
          Event.close s.sock ∈ out.state.trace ∧
          ∃ pl, Event.sendto 3 pl s.addr ∈ out.state.trace) :=
  served_entry_in_bounds 3 sampleServer 4 sampleEnv sampleState (by decide) (by decide)

/-- C10 (no age check in the reply branch).  The reply branch never reads the
clock: replacing the clock of the environment leaves its result unchanged.  And
there is a pass in which the only entry has age 5 when the clearing loop
examines it, so that it stays, while any reading of the clock after `select`
gives age 100; the entry is served all the same and its reply is sent to its
client. -/
theorem reply_branch_ignores_age :
    (∀ (listener : Int) (env : Env) (c : Nat → Int) (fds : List Int) (fuel : Nat)
        (st : State),
        relay listener { env with clock := c } fds fuel st = relay listener env fds fuel st) ∧
    lateEnv.clock 0 - 0 ≤ 5 ∧ lateEnv.clock 1 - 0 > 5 ∧
    iteration 3 sampleServer 2 lateEnv lateState =
      some (Outcome.next
        { sockets := []
          client := clientA
          openFds := []
          stray := []
          trace := [Event.select 5 [3, 4], Event.recv 4, Event.close 4,
                    Event.sendto 3 (some [7, 9]) clientA] }) := by
  refine ⟨fun _ _ _ _ _ _ => rfl, by decide, by decide, by decide⟩

/-- C6, counterexample.  Default arguments, descriptor 3 for the listener, a
successful `bind` and a name that does not resolve: `main` returns 1, and the
log of that run contains the `bind` of the listener to port 53, issued before
the resolution was attempted. -/
theorem bind_precedes_failed_resolution_example :
    main sampleLibc unresolvedStart ["wwfc-dns-proxy"] 1 [] =
      some (Outcome.exit 1
        (initState clientA
          [Event.socket 3, Event.bind 3 { ip := 0, port := 53 },
           Event.resolve "violet.wiilink24.com",
           Event.perror "Failed to resolve server address"])) ∧
    ¬ (∀ out, main sampleLibc unresolvedStart ["wwfc-dns-proxy"] 1 [] = some out →
        ∀ fd a, Event.bind fd a ∉ out.state.trace) := by
  have h : main sampleLibc unresolvedStart ["wwfc-dns-proxy"] 1 [] =
      some (Outcome.exit 1
        (initState clientA
          [Event.socket 3, Event.bind 3 { ip := 0, port := 53 },
           Event.resolve "violet.wiilink24.com",
           Event.perror "Failed to resolve server address"])) := by decide
  refine ⟨h, ?_⟩
  intro hall
  exact hall _ h 3 { ip := 0, port := 53 } (by simp [Outcome.state, initState])

/-- C6, as the program does it.  In every run that reaches the resolution of the
server name (arguments accepted, Winsock started where it applies, listener
created and bound) and in which the resolution fails, `main` returns 1 and the
calls issued up to that point are, in this order: `socket`, `bind` of the
listener to port 53 at the bind address, the resolution, the diagnostic.  So
the listener is bound to port 53 exactly once, before the resolution. -/
theorem failed_resolution_exits_after_bind (libc : Libc) (w : StartEnv)
    (argv : List String) (fuel : Nat) (envs : List Env) (cfg : Config)
    (hargs : parseArgs (argv.drop 1) defaultConfig = ArgResult.ok cfg)
    (hwsa : w.wsaRet = none ∨ w.wsaRet = some 0)
    (hsock : 0 ≤ w.sockRet) (hbind : 0 ≤ w.bindRet)
    (hres : w.resolve (splitAddress cfg.serverAddress).1 = none) :
    main libc w argv fuel envs =
      some (Outcome.exit 1
        (initState w.client0
          ((match w.wsaRet with
            | none => []
            | some _ => [Event.wsaStartup]) ++
           [Event.socket w.sockRet,
            Event.bind w.sockRet { ip := libc.inet_addr cfg.bindAddress, port := 53 },
            Event.resolve (splitAddress cfg.serverAddress).1,
            Event.perror "Failed to resolve server address"]))) := by
  have h1 : ¬ w.sockRet < 0 := by omega
  have h2 : ¬ w.bindRet < 0 := by omega
  unfold main
  rw [hargs]
  rcases hwsa with hw | hw <;>
    simp [startup, hw, h1, h2, hres]

/-- Witness of C6 as amended: default arguments and a name that does not
resolve. -/
theorem failed_resolution_exits_after_bind_witness :
    main sampleLibc unresolvedStart ["wwfc-dns-proxy"] 1 [] =
      some (Outcome.exit 1
        (initState unresolvedStart.client0
          ((match unresolvedStart.wsaRet with
            | none => []
            | some _ => [Event.wsaStartup]) ++
           [Event.socket unresolvedStart.sockRet,
            Event.bind unresolvedStart.sockRet
              { ip := sampleLibc.inet_addr defaultConfig.bindAddress, port := 53 },
            Event.resolve (splitAddress defaultConfig.serverAddress).1,
            Event.perror "Failed to resolve server address"]))) :=
  failed_resolution_exits_after_bind sampleLibc unresolvedStart ["wwfc-dns-proxy"] 1 []
    defaultConfig (by decide) (by decide) (by decide) (by decide) (by decide)

/-- C7 (rejected command lines).  If the scan of the arguments behind `argv[0]`
meets, before any help option, an argument that is no option or a value option
without a following argument, then `main` returns 1 and has issued no call at
all by then: in particular no socket exists. -/
theorem rejected_arguments_exit_before_sockets (libc : Libc) (w : StartEnv)
    (argv : List String) (fuel : Nat) (envs : List Env)
    (h : Rejected (argv.drop 1)) :
    main libc w argv fuel envs = some (Outcome.exit 1 (initState w.client0 [])) ∧
    ∀ out, main libc w argv fuel envs = some out →
      ∀ ret, Event.socket ret ∉ out.state.trace := by
  have hm : main libc w argv fuel envs = some (Outcome.exit 1 (initState w.client0 [])) := by
    unfold main
    rw [parseArgs_rejected h]
  refine ⟨hm, ?_⟩
  intro out hout ret
  rw [hm] at hout
  cases hout
  simp [Outcome.state, initState]

/-- Witness of C7: the command line that consists of `-a` alone. -/
theorem rejected_arguments_exit_before_sockets_witness :
    main sampleLibc unresolvedStart ["wwfc-dns-proxy", "-a"] 1 [] =
      some (Outcome.exit 1 (initState unresolvedStart.client0 [])) ∧
    ∀ out, main sampleLibc unresolvedStart ["wwfc-dns-proxy", "-a"] 1 [] = some out →
      ∀ ret, Event.socket ret ∉ out.state.trace :=
  rejected_arguments_exit_before_sockets sampleLibc unresolvedStart
    ["wwfc-dns-proxy", "-a"] 1 [] (Rejected.missing "-a" (Or.inl rfl))

/-- C5 (ownership of the upstream sockets).  Assume that every successful
`socket` call returns an `int` that is not open at that moment and that
`select` reports a non-empty subset of the set it was given.  Then in every
state in which the loop starts a pass

* the sockets stored in the vector are pairwise distinct, so two entries at
  different positions, also of the same client, have different sockets,
* none of them is the listener,
* they are exactly the open upstream descriptors, in the order of the vector,
* no `close` has been issued on a descriptor that was not open.

Since the open descriptors are those of the vector after every pass, an entry
that leaves the vector (served or stale) has had its socket closed, and since no
`close` ever met a descriptor that was not open it was closed once. -/
theorem socket_ownership (listener : Int) (server : SockAddr) (st : State)
    (h : Reachable listener server st) :
    (st.sockets.map SocketInfo.sock).Nodup ∧
    listener ∉ st.sockets.map SocketInfo.sock ∧
    st.openFds = st.sockets.map SocketInfo.sock ∧
    st.stray = [] ∧
    (∀ (i j : Nat) (a b : SocketInfo),
      st.sockets[i]? = some a → st.sockets[j]? = some b → i ≠ j → a.sock ≠ b.sock) := by
  have hinv : Inv listener st := by
    induction h with
    | init client0 tr =>
      exact ⟨by simp [initState], by simp [initState], by simp [initState],
        by simp [initState], by simp [initState]⟩
    | step st st1 env fuel r _ hfuel hreap hok hstep ih =>
      rw [reapPass_eq listener env.clock fuel st (inv_length_lt ih) hfuel] at hreap
      cases hreap
      have hinv2 := inv_afterReap ih env.clock
      refine inv_handle hinv2 hok ?_
        (Nat.lt_of_le_of_lt (afterReap_sockets_length_le listener env.clock st) hfuel) hstep
      intro fd hfd
      simpa [afterReap, eq_comm] using hfd
  refine ⟨hinv.nodup, hinv.notListener, hinv.owned, hinv.noStray, ?_⟩
  intro i j a b hi hj hij heq
  obtain ⟨hil, hia⟩ := List.getElem?_eq_some.1 hi
  obtain ⟨hjl, hjb⟩ := List.getElem?_eq_some.1 hj
  have hil2 : i < (st.sockets.map SocketInfo.sock).length := by simpa using hil
  have hjl2 : j < (st.sockets.map SocketInfo.sock).length := by simpa using hjl
  have hget : (st.sockets.map SocketInfo.sock)[i] = (st.sockets.map SocketInfo.sock)[j] := by
    simp [hia, hjb, heq]
  exact hij ((List.Nodup.getElem_inj_iff hinv.nodup).1 hget)

/-- Witness of C5: two queries of the same client, answered by `socket` with 7
and 8, lead to a reachable state with two entries of that client. -/
theorem socket_ownership_witness :
    (twoQueries.sockets.map SocketInfo.sock).Nodup ∧
    (3 : Int) ∉ twoQueries.sockets.map SocketInfo.sock ∧
    twoQueries.openFds = twoQueries.sockets.map SocketInfo.sock ∧
    twoQueries.stray = [] ∧
    (∀ (i j : Nat) (a b : SocketInfo),
      twoQueries.sockets[i]? = some a → twoQueries.sockets[j]? = some b → i ≠ j →
      a.sock ≠ b.sock) :=
  socket_ownership 3 sampleServer twoQueries
    (Reachable.step oneQuery twoQueries queryEnv8 2 oneQueryReap
      (Reachable.step (initState clientA []) oneQuery queryEnv7 1 emptyReap
        (Reachable.init clientA []) (by decide) (by decide)
        ⟨by decide, by decide, by decide, by decide⟩ (by decide))
      (by decide) (by decide) ⟨by decide, by decide, by decide, by decide⟩ (by decide))


end WwfcDnsProxy
